import Mathlib

/-!
Formal model of the `ws-endpoint-monitor` program (`src/main.rs`): the probe
loop `connection_monitor` updating the two shared counters, and the
Prometheus rendering path `metrics_handler` / `prometheus_output`, together
with theorems about the documented behaviour.
-/

namespace WsMonitor

/-- The two shared `AtomicUsize` counters of `main.rs` (`success`, `failure`),
modelled as exact naturals: they are increment-only, starting from
`AtomicUsize::new(0)`, so `usize` wrap-around is unreachable in any run whose
cycle count stays below `2^64`. -/
structure Counters where
  success : Nat
  failure : Nat
deriving DecidableEq

/-- Outcome of the two probe phases of one cycle of `connection_monitor`
(main.rs lines 160-189): either the `WsClientBuilder::build` connection
attempt fails with an error, or a client is obtained and the single
`chain_getFinalizedHead` request either returns a `String` response
(`Ok(resp)`) or fails (`Err(e)`). -/
inductive ProbeEnv where
  | connectFail (err : String)
  | connected (req : Except String String)

/-- One iteration of the `loop` body in `connection_monitor`: the nested
`match` on the connection result and then on the RPC request result; exactly
one `fetch_add(1, ...)` runs on one of the two counters, and every error arm
only logs and counts (nothing propagates out of the loop body). -/
def monitorCycle (st : Counters) (env : ProbeEnv) : Counters :=
  match env with
  | .connected (.ok _resp) => { st with success := st.success + 1 }
  | .connected (.error _e) => { st with failure := st.failure + 1 }
  | .connectFail _e => { st with failure := st.failure + 1 }

/-- Whether the RPC request phase runs during a cycle: in `connection_monitor`
the `client.request("chain_getFinalizedHead", ...)` call occurs only inside
the `Ok(client)` arm of the connection `match`, so it is attempted exactly
when the connection phase succeeded. -/
def requestAttempted : ProbeEnv → Bool
  | .connectFail _ => false
  | .connected _ => true

/-- A cycle whose classification is Failure (either probe phase failed). -/
def isFailureEnv : ProbeEnv → Bool
  | .connected (.ok _) => false
  | .connected (.error _) => true
  | .connectFail _ => true

/-- Counter state of the `connection_monitor` task after the completed probe
cycles described by `envs`, starting from the zero-initialized counters built
in `main` (`AtomicUsize::new(0)` for both). A probe still in flight is simply
not yet an element of `envs`. -/
def connection_monitor (envs : List ProbeEnv) : Counters :=
  envs.foldl monitorCycle ⟨0, 0⟩

lemma monitorCycle_sum (st : Counters) (env : ProbeEnv) :
    (monitorCycle st env).success + (monitorCycle st env).failure
      = st.success + st.failure + 1 := by
  cases env with
  | connectFail e => simp [monitorCycle]; omega
  | connected r => cases r <;> simp [monitorCycle] <;> omega

lemma monitorCycle_mono_success (st : Counters) (env : ProbeEnv) :
    st.success ≤ (monitorCycle st env).success := by
  cases env with
  | connectFail e => simp [monitorCycle]
  | connected r => cases r <;> simp [monitorCycle]

lemma monitorCycle_mono_failure (st : Counters) (env : ProbeEnv) :
    st.failure ≤ (monitorCycle st env).failure := by
  cases env with
  | connectFail e => simp [monitorCycle]
  | connected r => cases r <;> simp [monitorCycle]

lemma foldl_monitorCycle_sum (envs : List ProbeEnv) (st : Counters) :
    (envs.foldl monitorCycle st).success + (envs.foldl monitorCycle st).failure
      = st.success + st.failure + envs.length := by
  induction envs generalizing st with
  | nil => simp
  | cons e es ih =>
      simp only [List.foldl_cons, List.length_cons]
      rw [ih (monitorCycle st e), monitorCycle_sum]
      omega

lemma foldl_monitorCycle_mono_success (envs : List ProbeEnv) (st : Counters) :
    st.success ≤ (envs.foldl monitorCycle st).success := by
  induction envs generalizing st with
  | nil => simp
  | cons e es ih =>
      exact le_trans (monitorCycle_mono_success st e) (ih (monitorCycle st e))

lemma foldl_monitorCycle_mono_failure (envs : List ProbeEnv) (st : Counters) :
    st.failure ≤ (envs.foldl monitorCycle st).failure := by
  induction envs generalizing st with
  | nil => simp
  | cons e es ih =>
      exact le_trans (monitorCycle_mono_failure st e) (ih (monitorCycle st e))

/-- C1: after the N completed probe cycles `envs`, the counters sum to N
(each completed cycle increments exactly one counter by one; an in-flight
probe is not yet part of the history and contributes to neither), and both
counters are monotonically non-decreasing as the history extends. -/
theorem C1_counters_sum_eq_cycles_and_monotone (envs extra : List ProbeEnv) :
    (connection_monitor envs).success + (connection_monitor envs).failure
        = envs.length
    ∧ (connection_monitor envs).success
        ≤ (connection_monitor (envs ++ extra)).success
    ∧ (connection_monitor envs).failure
        ≤ (connection_monitor (envs ++ extra)).failure := by
  refine ⟨?_, ?_, ?_⟩
  · have h := foldl_monitorCycle_sum envs ⟨0, 0⟩
    simpa [connection_monitor] using h
  · have h := foldl_monitorCycle_mono_success extra (connection_monitor envs)
    simpa [connection_monitor, List.foldl_append] using h
  · have h := foldl_monitorCycle_mono_failure extra (connection_monitor envs)
    simpa [connection_monitor, List.foldl_append] using h

lemma foldl_monitorCycle_all_failures (envs : List ProbeEnv) (st : Counters)
    (h : ∀ e ∈ envs, isFailureEnv e = true) :
    envs.foldl monitorCycle st = ⟨st.success, st.failure + envs.length⟩ := by
  induction envs generalizing st with
  | nil => simp
  | cons e es ih =>
      have he : isFailureEnv e = true := h e (List.mem_cons_self e es)
      have hes : ∀ x ∈ es, isFailureEnv x = true :=
        fun x hx => h x (List.mem_cons_of_mem e hx)
      have hc : monitorCycle st e = ⟨st.success, st.failure + 1⟩ := by
        cases e with
        | connectFail err => simp [monitorCycle]
        | connected r =>
            cases r with
            | ok v => simp [isFailureEnv] at he
            | error err => simp [monitorCycle]
      simp only [List.foldl_cons, hc, ih _ hes, List.length_cons]
      congr 1
      omega

/-- C3: probe-level errors never escape the loop. For any history of ten
consecutive failing cycles the counters read `failure = 10`, `success = 0`,
and the loop is still alive: for every further probe outcome the history
extends by exactly one more `monitorCycle` step (cycle eleven is processed
normally; the step function is total, so no error outcome can make the loop
panic, return, or stop). -/
theorem C3_survives_consecutive_failures (envs : List ProbeEnv)
    (hlen : envs.length = 10) (hfail : ∀ e ∈ envs, isFailureEnv e = true) :
    (connection_monitor envs).failure = 10
    ∧ (connection_monitor envs).success = 0
    ∧ ∀ e : ProbeEnv,
        connection_monitor (envs ++ [e])
          = monitorCycle (connection_monitor envs) e := by
  have h := foldl_monitorCycle_all_failures envs ⟨0, 0⟩ hfail
  refine ⟨?_, ?_, ?_⟩
  · simp [connection_monitor, h, hlen]
  · simp [connection_monitor, h]
  · intro e
    simp [connection_monitor, List.foldl_append]

/-- Witness for C3 at the concrete history of ten connection-refused cycles. -/
theorem C3_witness :
    (List.replicate 10 (ProbeEnv.connectFail "refused")).length = 10
    ∧ (∀ e ∈ List.replicate 10 (ProbeEnv.connectFail "refused"),
        isFailureEnv e = true)
    ∧ ((connection_monitor (List.replicate 10 (ProbeEnv.connectFail "refused"))).failure = 10
        ∧ (connection_monitor (List.replicate 10 (ProbeEnv.connectFail "refused"))).success = 0
        ∧ ∀ e : ProbeEnv,
            connection_monitor (List.replicate 10 (ProbeEnv.connectFail "refused") ++ [e])
              = monitorCycle (connection_monitor (List.replicate 10 (ProbeEnv.connectFail "refused"))) e) := by
  refine ⟨by simp, ?_, ?_⟩
  · intro e he
    have : e = ProbeEnv.connectFail "refused" := (List.eq_of_mem_replicate he)
    simp [this, isFailureEnv]
  · exact C3_survives_consecutive_failures _ (by simp)
      (fun e he => by
        have : e = ProbeEnv.connectFail "refused" := (List.eq_of_mem_replicate he)
        simp [this, isFailureEnv])

/-- C4: a cycle whose connection phase fails (every connection-phase error is
the single `Err(e)` arm of the `build` match, regardless of cause) increments
`failure` by one, leaves `success` unchanged, never reaches the request phase,
and the loop proceeds: the history extends by exactly this one step. -/
theorem C4_connect_failure_counts_and_skips_request
    (envs : List ProbeEnv) (err : String) :
    connection_monitor (envs ++ [ProbeEnv.connectFail err])
        = ⟨(connection_monitor envs).success,
           (connection_monitor envs).failure + 1⟩
    ∧ requestAttempted (ProbeEnv.connectFail err) = false := by
  constructor
  · simp [connection_monitor, List.foldl_append, monitorCycle]
  · rfl

/-- C5: a cycle whose connection phase succeeds but whose request phase fails
(the `Err(e)` arm of the inner `client.request` match) increments `failure`
by one and leaves `success` unchanged. -/
theorem C5_request_failure_increments_failure_only
    (st : Counters) (err : String) :
    monitorCycle st (ProbeEnv.connected (Except.error err))
      = ⟨st.success, st.failure + 1⟩ := by
  simp [monitorCycle]

/-! ## The Prometheus rendering path

`prometheus_output` (main.rs lines 215-243) builds two `prometheus::Counter`
values sharing one metric name, registers them in a fresh `Registry`, bumps
them to the snapshot values, and text-encodes the gathered families.  The
model below mirrors the behaviour of the `prometheus` crate pieces the
function uses: `Opts`/`Counter::with_opts` (metric and label name
validation), `Registry::register` (duplicate and inconsistent descriptor
rejection), `Registry::gather` (grouping families by name, labels sorted by
label name, a family's metrics sorted by label values) and `TextEncoder`
(the text exposition format with label-value escaping).  Counter values are
carried as exact naturals: the crate stores them as `f64`, and
`usize as f64` followed by the encoder's decimal formatting is the identity
for every value below `2^53`, far above any reachable value of these
increment-only counters (the spec places counter overflow out of scope). -/

def lbrace : Char := Char.ofNat 123

def rbrace : Char := Char.ofNat 125

/-- Byte-order comparison of strings as used by the crate's sorts (UTF-8
byte order coincides with scalar-value order). -/
def cmpChars : List Char → List Char → Ordering
  | [], [] => .eq
  | [], _ :: _ => .lt
  | _ :: _, [] => .gt
  | a :: as, b :: bs =>
    if a.toNat < b.toNat then .lt
    else if b.toNat < a.toNat then .gt
    else cmpChars as bs

def cmpStr (a b : String) : Ordering := cmpChars a.data b.data

def insertLabel (p : String × String) :
    List (String × String) → List (String × String)
  | [] => [p]
  | q :: qs =>
    match cmpStr p.1 q.1 with
    | .gt => q :: insertLabel p qs
    | _ => p :: q :: qs

/-- The crate emits a metric's label pairs sorted by label name. -/
def sortLabelsByName : List (String × String) → List (String × String)
  | [] => []
  | p :: ps => insertLabel p (sortLabelsByName ps)

structure Opts where
  name : String
  help : String
  constLabels : List (String × String)
deriving DecidableEq

def Opts.new (name help : String) : Opts := ⟨name, help, []⟩

def Opts.const_label (o : Opts) (k v : String) : Opts :=
  { o with constLabels := o.constLabels ++ [(k, v)] }

def isAlphaCh (c : Char) : Bool :=
  (65 ≤ c.toNat && c.toNat ≤ 90) || (97 ≤ c.toNat && c.toNat ≤ 122)

def isDigitCh (c : Char) : Bool := 48 ≤ c.toNat && c.toNat ≤ 57

/-- Metric-name validation of the crate: `[a-zA-Z_:][a-zA-Z0-9_:]*`. -/
def validMetricName (s : String) : Bool :=
  match s.data with
  | [] => false
  | c :: cs =>
      (isAlphaCh c || c = '_' || c = ':')
        && cs.all fun d => isAlphaCh d || isDigitCh d || d = '_' || d = ':'

def reservedLabelName : List Char → Bool
  | '_' :: '_' :: _ => true
  | _ => false

/-- Label-name validation of the crate: `[a-zA-Z_][a-zA-Z0-9_]*`, names
starting with `__` reserved.  Label values are not validated. -/
def validLabelName (s : String) : Bool :=
  match s.data with
  | [] => false
  | c :: cs =>
      (isAlphaCh c || c = '_')
        && (cs.all fun d => isAlphaCh d || isDigitCh d || d = '_')
        && !reservedLabelName s.data

/-- A `prometheus::Counter`: its descriptor options and its current value. -/
structure Counter where
  opts : Opts
  value : Nat
deriving DecidableEq

/-- `Counter::with_opts`: validates the metric name and the label names and
yields a counter starting at zero. -/
def Counter.with_opts (o : Opts) : Except String Counter :=
  if validMetricName o.name && (o.constLabels.all fun p => validLabelName p.1)
  then .ok ⟨o, 0⟩
  else .error "invalid metric description"

def labelsEq : List (String × String) → List (String × String) → Bool
  | [], [] => true
  | (k1, v1) :: ps, (k2, v2) :: qs => k1 == k2 && v1 == v2 && labelsEq ps qs
  | _, _ => false

def Counter.descLabels (c : Counter) : List (String × String) :=
  sortLabelsByName c.opts.constLabels

/-- Two collectors have the same descriptor id exactly when the
fully-qualified name and the (sorted) const label pairs coincide — this is
the identity under which the crate's `Arc`-shared counter handles alias. -/
def sameDesc (a b : Counter) : Bool :=
  a.opts.name == b.opts.name && labelsEq a.descLabels b.descLabels

/-- Same family name but different help or label names: rejected by
`Registry::register`. -/
def dimMismatch (a b : Counter) : Bool :=
  a.opts.name == b.opts.name
    && !(a.opts.help == b.opts.help
          && a.descLabels.map Prod.fst == b.descLabels.map Prod.fst)

/-- A registry is the list of registered collectors (registration order). -/
def Registry.register (r : List Counter) (c : Counter) :
    Except String (List Counter) :=
  if r.any fun c0 => sameDesc c0 c then
    .error "duplicate metrics collector registration attempted"
  else if r.any fun c0 => dimMismatch c0 c then
    .error "previously registered descriptor conflicts"
  else .ok (r ++ [c])

/-- `counter.inc_by(n)` through the `Arc`-shared handle: bumps the registered
cell with the same descriptor. -/
def Registry.inc_by (r : List Counter) (target : Counter) (n : Nat) :
    List Counter :=
  r.map fun c0 => if sameDesc c0 target then { c0 with value := c0.value + n } else c0

structure Metric where
  labels : List (String × String)
  value : Nat
deriving DecidableEq

structure MetricFamily where
  name : String
  help : String
  mtype : String
  metrics : List Metric
deriving DecidableEq

def metricOfCounter (c : Counter) : Metric :=
  ⟨sortLabelsByName c.opts.constLabels, c.value⟩

/-- Insertion into the name-sorted family map (the crate's `BTreeMap` keyed
by family name; collectors with one name share one family). -/
def gatherInsert (c : Counter) : List MetricFamily → List MetricFamily
  | [] => [⟨c.opts.name, c.opts.help, "counter", [metricOfCounter c]⟩]
  | mf :: mfs =>
    match cmpStr c.opts.name mf.name with
    | .eq => { mf with metrics := mf.metrics ++ [metricOfCounter c] } :: mfs
    | .lt => ⟨c.opts.name, c.opts.help, "counter", [metricOfCounter c]⟩ :: mf :: mfs
    | .gt => mf :: gatherInsert c mfs

def cmpValues : List String → List String → Ordering
  | [], [] => .eq
  | [], _ :: _ => .lt
  | _ :: _, [] => .gt
  | a :: as, b :: bs =>
    match cmpStr a b with
    | .eq => cmpValues as bs
    | o => o

/-- `Registry::gather` sorts each family's metrics by their label values. -/
def metricLe (a b : Metric) : Bool :=
  match cmpValues (a.labels.map Prod.snd) (b.labels.map Prod.snd) with
  | .gt => false
  | _ => true

def insertMetric (m : Metric) : List Metric → List Metric
  | [] => [m]
  | x :: xs => if metricLe m x then m :: x :: xs else x :: insertMetric m xs

def sortMetrics : List Metric → List Metric
  | [] => []
  | m :: ms => insertMetric m (sortMetrics ms)

def Registry.gather (r : List Counter) : List MetricFamily :=
  (r.foldl (fun acc c => gatherInsert c acc) []).map
    fun mf => { mf with metrics := sortMetrics mf.metrics }

/-- Label-value escaping of the text encoder: backslash, newline and double
quote are escaped. -/
def escChar (c : Char) : List Char :=
  if c = '\\' then ['\\', '\\']
  else if c = '\n' then ['\\', 'n']
  else if c = '"' then ['\\', '"']
  else [c]

def escapeLabelValue : List Char → List Char
  | [] => []
  | c :: cs => escChar c ++ escapeLabelValue cs

/-- Help-text escaping of the text encoder: backslash and newline only. -/
def escHelpChar (c : Char) : List Char :=
  if c = '\\' then ['\\', '\\'] else if c = '\n' then ['\\', 'n'] else [c]

def escapeHelp : List Char → List Char
  | [] => []
  | c :: cs => escHelpChar c ++ escapeHelp cs

def digitsRevFuel : Nat → Nat → List Nat
  | 0, _ => []
  | fuel + 1, n => if n = 0 then [] else n % 10 :: digitsRevFuel fuel (n / 10)

/-- Decimal rendering of a counter value (the crate prints the `f64` with
`Display`, which for the integral values reachable here is plain decimal). -/
def natDigits (n : Nat) : List Char :=
  if n = 0 then ['0']
  else (digitsRevFuel n n).reverse.map fun d => Char.ofNat (48 + d)

def renderLabelPairs : List (String × String) → List Char
  | [] => []
  | [(k, v)] => k.data ++ '=' :: '"' :: (escapeLabelValue v.data ++ ['"'])
  | (k, v) :: ps =>
      k.data ++ '=' :: '"' ::
        (escapeLabelValue v.data ++ '"' :: ',' :: renderLabelPairs ps)

def encodeMetric (name : String) (m : Metric) : List Char :=
  match m.labels with
  | [] => name.data ++ ' ' :: (natDigits m.value ++ ['\n'])
  | _ =>
      name.data ++ lbrace ::
        (renderLabelPairs m.labels ++ rbrace :: ' ' :: (natDigits m.value ++ ['\n']))

def encodeMetrics (name : String) : List Metric → List Char
  | [] => []
  | m :: ms => encodeMetric name m ++ encodeMetrics name ms

def encodeFamily (mf : MetricFamily) : List Char :=
  "# HELP ".data ++ mf.name.data ++ ' ' :: (escapeHelp mf.help.data ++ ['\n'])
    ++ "# TYPE ".data ++ mf.name.data ++ ' ' :: (mf.mtype.data ++ ['\n'])
    ++ encodeMetrics mf.name mf.metrics

def encodeFamilies : List MetricFamily → List Char
  | [] => []
  | mf :: mfs => encodeFamily mf ++ encodeFamilies mfs

def TextEncoder.format_type : String := "text/plain; version=0.0.4"

structure HttpResponse where
  status : Nat
  contentType : String
  body : List Char
deriving DecidableEq

/-- The counter/registry construction inside `prometheus_output` (main.rs
lines 216-231): two counters under the family `check_count` with an
`endpoint` const label and a `result` const label (`SUCCESS` / `TIMEOUT`),
registered in a fresh registry and bumped to the snapshot values.  Each
`unwrap()` of the Rust code is an `Except.error` here. -/
def check_registry (endpoint : String) (success failure : Nat) :
    Except String (List Counter) := do
  let counter_opts :=
    (Opts.new "check_count" "Number of connection check results").const_label
      "endpoint" endpoint
  let success_counter ← Counter.with_opts
    (counter_opts.const_label "result" "SUCCESS")
  let failure_counter ← Counter.with_opts
    (counter_opts.const_label "result" "TIMEOUT")
  let r ← Registry.register [] success_counter
  let r ← Registry.register r failure_counter
  let r := Registry.inc_by r success_counter success
  let r := Registry.inc_by r failure_counter failure
  .ok r

/-- `prometheus_output` (main.rs lines 215-243): build the registry, encode
the gathered families, and answer HTTP 200 with the encoder's content type. -/
def prometheus_output (endpoint : String) (success failure : Nat) :
    Except String HttpResponse := do
  let r ← check_registry endpoint success failure
  .ok ⟨200, TextEncoder.format_type, encodeFamilies (Registry.gather r)⟩

/-- The `AppState` shared with the HTTP handler. -/
structure AppState where
  ws_endpoint : String
  success : Nat
  failure : Nat
deriving DecidableEq

/-- `metrics_handler` (main.rs lines 197-203): two atomic loads, then
`prometheus_output`; the handler performs no store, so the state it hands
back is the state it received. -/
def metrics_handler (data : AppState) :
    AppState × Except String HttpResponse :=
  let success := data.success
  let failure := data.failure
  (data, prometheus_output data.ws_endpoint success failure)

/-- The declared clap default of `--monitor-url` (main.rs line 26). -/
def defaultMonitorUrl : String := "wss://mainnet.liberland.org"

/-- Clap argument resolution for `monitor_url`: the user-supplied value when
present, otherwise the declared default; no further validation. -/
def argsMonitorUrl (cli : Option String) : String :=
  cli.getD defaultMonitorUrl

/-- The `AppState` built in `main` from the parsed arguments: `ws_endpoint`
is `args.monitor_url` verbatim and both counters start at zero. -/
def appStateOf (cli : Option String) : AppState :=
  ⟨argsMonitorUrl cli, 0, 0⟩

/-- The SUCCESS counter as built inside `prometheus_output`, at value `v`. -/
def counterS (E : String) (v : Nat) : Counter :=
  ⟨⟨"check_count", "Number of connection check results",
    [("endpoint", E), ("result", "SUCCESS")]⟩, v⟩

/-- The TIMEOUT counter as built inside `prometheus_output`, at value `v`. -/
def counterF (E : String) (v : Nat) : Counter :=
  ⟨⟨"check_count", "Number of connection check results",
    [("endpoint", E), ("result", "TIMEOUT")]⟩, v⟩

lemma labelsEq_refl (l : List (String × String)) : labelsEq l l = true := by
  induction l with
  | nil => rfl
  | cons p ps ih => cases p; simp [labelsEq, ih]

lemma cmpChars_self (l : List Char) : cmpChars l l = Ordering.eq := by
  induction l with
  | nil => rfl
  | cons c cs ih => simp [cmpChars, ih]

lemma cmpStr_self (a : String) : cmpStr a a = Ordering.eq :=
  cmpChars_self a.data

lemma sortLabels_ER (E X : String) :
    sortLabelsByName [("endpoint", E), ("result", X)]
      = [("endpoint", E), ("result", X)] := by
  have h : cmpStr "endpoint" "result" = Ordering.lt := by decide
  simp [sortLabelsByName, insertLabel, h]

lemma ok_bind {α β : Type} (a : α) (g : α → Except String β) :
    (Except.ok a >>= g) = g a := rfl

lemma with_opts_ER (E X : String) :
    Counter.with_opts ⟨"check_count", "Number of connection check results",
      [("endpoint", E), ("result", X)]⟩
      = .ok ⟨⟨"check_count", "Number of connection check results",
          [("endpoint", E), ("result", X)]⟩, 0⟩ := by
  have h1 : validMetricName "check_count" = true := by decide
  have h2 : validLabelName "endpoint" = true := by decide
  have h3 : validLabelName "result" = true := by decide
  simp [Counter.with_opts, h1, h2, h3]

lemma sameDesc_SF (E : String) (v w : Nat) :
    sameDesc ⟨⟨"check_count", "Number of connection check results",
        [("endpoint", E), ("result", "SUCCESS")]⟩, v⟩
      ⟨⟨"check_count", "Number of connection check results",
        [("endpoint", E), ("result", "TIMEOUT")]⟩, w⟩ = false := by
  have h : ("SUCCESS" == "TIMEOUT") = false := by decide
  simp [sameDesc, Counter.descLabels, sortLabels_ER, labelsEq, h]

lemma sameDesc_FS (E : String) (v w : Nat) :
    sameDesc ⟨⟨"check_count", "Number of connection check results",
        [("endpoint", E), ("result", "TIMEOUT")]⟩, v⟩
      ⟨⟨"check_count", "Number of connection check results",
        [("endpoint", E), ("result", "SUCCESS")]⟩, w⟩ = false := by
  have h : ("TIMEOUT" == "SUCCESS") = false := by decide
  simp [sameDesc, Counter.descLabels, sortLabels_ER, labelsEq, h]

lemma sameDesc_self_opts (E X : String) (v w : Nat) :
    sameDesc ⟨⟨"check_count", "Number of connection check results",
        [("endpoint", E), ("result", X)]⟩, v⟩
      ⟨⟨"check_count", "Number of connection check results",
        [("endpoint", E), ("result", X)]⟩, w⟩ = true := by
  simp [sameDesc, Counter.descLabels, sortLabels_ER, labelsEq_refl]

lemma dimMismatch_SF (E : String) (v w : Nat) :
    dimMismatch ⟨⟨"check_count", "Number of connection check results",
        [("endpoint", E), ("result", "SUCCESS")]⟩, v⟩
      ⟨⟨"check_count", "Number of connection check results",
        [("endpoint", E), ("result", "TIMEOUT")]⟩, w⟩ = false := by
  simp [dimMismatch, Counter.descLabels, sortLabels_ER]

/-- The registry `prometheus_output` builds: registration always succeeds
(the two descriptors share the family name and label names but differ in the
`result` label value) and the `inc_by` calls bump exactly their own cell. -/
lemma check_registry_eq (E : String) (s f : Nat) :
    check_registry E s f = .ok [counterS E s, counterF E f] := by
  simp only [check_registry, Opts.new, Opts.const_label, List.nil_append,
    List.singleton_append]
  rw [with_opts_ER E "SUCCESS", with_opts_ER E "TIMEOUT"]
  simp [ok_bind, Registry.register, Registry.inc_by, sameDesc_SF, sameDesc_FS,
    sameDesc_self_opts, dimMismatch_SF, counterS, counterF]

/-- Gathering that registry yields one `check_count` counter family whose two
samples are sorted with the `SUCCESS` sample first. -/
lemma gather_check (E : String) (s f : Nat) :
    Registry.gather [counterS E s, counterF E f]
      = [⟨"check_count", "Number of connection check results", "counter",
          [⟨[("endpoint", E), ("result", "SUCCESS")], s⟩,
           ⟨[("endpoint", E), ("result", "TIMEOUT")], f⟩]⟩] := by
  have hcc : cmpStr "check_count" "check_count" = Ordering.eq := cmpStr_self _
  have hle : metricLe ⟨[("endpoint", E), ("result", "SUCCESS")], s⟩
      ⟨[("endpoint", E), ("result", "TIMEOUT")], f⟩ = true := by
    have h1 : cmpStr "SUCCESS" "TIMEOUT" = Ordering.lt := by decide
    simp [metricLe, cmpValues, cmpStr_self, h1]
  simp [Registry.gather, gatherInsert, metricOfCounter, counterS, counterF,
    sortLabels_ER, hcc, sortMetrics, insertMetric, hle]

/-- C2: for every endpoint label and counter pair, the registry construction
succeeds and gathering produces exactly one metric family named
`check_count`, of counter type, with exactly two samples: labels
`endpoint=E, result="SUCCESS"` with value `s` and `endpoint=E,
result="TIMEOUT"` with value `f`, the endpoint label carried verbatim. -/
theorem C2_render_two_samples (E : String) (s f : Nat) :
    ∃ r, check_registry E s f = Except.ok r
      ∧ Registry.gather r
        = [⟨"check_count", "Number of connection check results", "counter",
            [⟨[("endpoint", E), ("result", "SUCCESS")], s⟩,
             ⟨[("endpoint", E), ("result", "TIMEOUT")], f⟩]⟩] :=
  ⟨[counterS E s, counterF E f], check_registry_eq E s f, gather_check E s f⟩

/-- C6: the `/metrics` handler is pure: it hands back the state it received
(no counter is mutated by rendering), and rendering again from that state
yields a byte-identical response. -/
theorem C6_render_pure_and_idempotent (st : AppState) :
    (metrics_handler st).1 = st
    ∧ (metrics_handler ((metrics_handler st).1)).2 = (metrics_handler st).2 :=
  ⟨rfl, rfl⟩

/-- C8: at the zero boundary, rendering still produces the full family: both
the `SUCCESS` and the `TIMEOUT` sample are present, each valued zero. -/
theorem C8_zero_boundary_both_samples (E : String) :
    ∃ r, check_registry E 0 0 = Except.ok r
      ∧ Registry.gather r
        = [⟨"check_count", "Number of connection check results", "counter",
            [⟨[("endpoint", E), ("result", "SUCCESS")], 0⟩,
             ⟨[("endpoint", E), ("result", "TIMEOUT")], 0⟩]⟩] :=
  ⟨[counterS E 0, counterF E 0], check_registry_eq E 0 0, gather_check E 0 0⟩

/-- C10: `prometheus_output` is total — the name/label validations and both
registrations succeed for every endpoint string (including `""`) and every
pair of counter values, so the handler always yields an HTTP 200 response
with the encoder's content type; no `unwrap()` can fail. -/
theorem C10_prometheus_output_total (E : String) (s f : Nat) :
    ∃ resp, prometheus_output E s f = Except.ok resp
      ∧ resp.status = 200 ∧ resp.contentType = TextEncoder.format_type := by
  refine ⟨⟨200, TextEncoder.format_type,
    encodeFamilies (Registry.gather [counterS E s, counterF E f])⟩, ?_, rfl, rfl⟩
  unfold prometheus_output
  rw [check_registry_eq]
  exact rfl

/-- C9 counterexample: the claim "every reachable invocation of the renderer
carries a non-empty endpoint label" fails: `--monitor-url ""` is accepted
unvalidated, and the handler then renders with the empty label. -/
theorem C9_counterexample :
    ¬ ∀ cli : Option String, (appStateOf cli).ws_endpoint ≠ "" := by
  intro h
  exact h (some "") rfl

/-- C9 (amended): the endpoint label is the `monitor_url` argument verbatim;
it is non-empty whenever the supplied argument is non-empty, and in
particular when the argument is omitted, since the declared default
`wss://mainnet.liberland.org` is non-empty.  The code itself never rejects
an explicitly supplied empty URL. -/
theorem C9_label_nonempty_unless_empty_arg (cli : Option String)
    (h : cli ≠ some "") : (appStateOf cli).ws_endpoint ≠ "" := by
  cases cli with
  | none =>
      simp [appStateOf, argsMonitorUrl, defaultMonitorUrl]
  | some s =>
      simp only [appStateOf, argsMonitorUrl, Option.getD_some]
      intro hs
      exact h (by rw [hs])

/-- Witness for C9 at the default configuration. -/
theorem C9_witness :
    ((none : Option String) ≠ some "")
    ∧ (appStateOf (none : Option String)).ws_endpoint ≠ "" :=
  ⟨by simp, C9_label_nonempty_unless_empty_arg none (by simp)⟩

/-! ## A parser for the exposition format (round-trip property)

The repository contains no parser; the spec's round-trip property quantifies
over "a standards-conformant parser for the exposition format", so the
parser below is modelled from the spec / the Prometheus text-format
description: lines are separated by `\n`, a line starting with `#` is a
comment, a sample line is `name{label="value",...} value` with the label
value escapes `\\`, `\"` and `\n`, restricted to the decimal integer values
the counter samples of this program carry. -/

def isLabelNameChar (c : Char) : Bool := isAlphaCh c || isDigitCh c || c = '_'

def isMetricNameChar (c : Char) : Bool :=
  isAlphaCh c || isDigitCh c || c = '_' || c = ':'

def unescapeChar (c : Char) : Option Char :=
  if c = '\\' then some '\\'
  else if c = 'n' then some '\n'
  else if c = '"' then some '"'
  else none

/-- Scan a quoted label value up to its closing `"`, undoing the escapes;
returns the value and the input after the closing quote. -/
def scanQuoted : List Char → Option (List Char × List Char)
  | [] => none
  | c :: cs =>
    if c = '\\' then
      match cs with
      | [] => none
      | d :: cs2 =>
        match unescapeChar d, scanQuoted cs2 with
        | some u, some (v, r) => some (u :: v, r)
        | _, _ => none
    else if c = '"' then some ([], cs)
    else
      match scanQuoted cs with
      | some (v, r) => some (c :: v, r)
      | none => none

/-- One parsed sample: metric name, label pairs, integer value. -/
structure Sample where
  name : String
  labels : List (String × String)
  value : Nat
deriving DecidableEq

def digitsVal (ds : List Char) : Nat :=
  ds.foldl (fun a c => 10 * a + (c.toNat - 48)) 0

/-- Parse a nonempty run of decimal digits filling the rest of the line. -/
def parseNatEnd (cs : List Char) : Option Nat :=
  let ds := cs.takeWhile isDigitCh
  if ds.isEmpty then none
  else if (cs.dropWhile isDigitCh).isEmpty then some (digitsVal ds)
  else none

/-- Parse `key="value"` pairs separated by `,` up to the closing brace;
the fuel argument bounds the number of pairs. -/
def parseLabelList :
    Nat → List Char → Option (List (String × String) × List Char)
  | 0, _ => none
  | fuel + 1, cs =>
    let k := cs.takeWhile isLabelNameChar
    let rest := cs.dropWhile isLabelNameChar
    if k.isEmpty then none
    else
      match rest with
      | c1 :: rest1 =>
        if c1 = '=' then
          match rest1 with
          | c2 :: rest2 =>
            if c2 = '"' then
              match scanQuoted rest2 with
              | some (v, rest3) =>
                match rest3 with
                | c3 :: rest4 =>
                  if c3 = ',' then
                    match parseLabelList fuel rest4 with
                    | some (ps, r) => some ((⟨k⟩, ⟨v⟩) :: ps, r)
                    | none => none
                  else if c3 = rbrace then some ([(⟨k⟩, ⟨v⟩)], rest4)
                  else none
                | [] => none
              | none => none
            else none
          | [] => none
        else none
      | [] => none

/-- Parse one sample line (without its terminating newline). -/
def parseSampleLine (cs : List Char) : Option Sample :=
  let name := cs.takeWhile isMetricNameChar
  let rest := cs.dropWhile isMetricNameChar
  if name.isEmpty then none
  else
    match rest with
    | [] => none
    | c :: rest2 =>
      if c = lbrace then
        match parseLabelList (rest2.length + 1) rest2 with
        | some (ps, r) =>
          match r with
          | c2 :: r2 =>
            if c2 = ' ' then
              match parseNatEnd r2 with
              | some v => some ⟨⟨name⟩, ps, v⟩
              | none => none
            else none
          | [] => none
        | none => none
      else if c = ' ' then
        match parseNatEnd rest2 with
        | some v => some ⟨⟨name⟩, [], v⟩
        | none => none
      else none

def splitOnNl : List Char → List (List Char)
  | [] => [[]]
  | c :: cs =>
    if c = '\n' then [] :: splitOnNl cs
    else
      match splitOnNl cs with
      | [] => [[c]]
      | l :: ls => (c :: l) :: ls

def isCommentOrBlank (l : List Char) : Bool :=
  match l with
  | [] => true
  | c :: _ => c = '#'

def parseLines : List (List Char) → Option (List Sample)
  | [] => some []
  | l :: ls =>
    if isCommentOrBlank l then parseLines ls
    else
      match parseSampleLine l, parseLines ls with
      | some s, some ss => some (s :: ss)
      | _, _ => none

/-- Parse a whole exposition-format document into its samples. -/
def parseExposition (cs : List Char) : Option (List Sample) :=
  parseLines (splitOnNl cs)

lemma isEmpty_false_of_ne_nil {l : List Char} (h : l ≠ []) :
    l.isEmpty = false := by
  cases l with
  | nil => exact absurd rfl h
  | cons a l => rfl

lemma takeWhile_all_eq (p : Char → Bool) (l : List Char)
    (h : ∀ x ∈ l, p x = true) :
    l.takeWhile p = l ∧ l.dropWhile p = [] := by
  induction l with
  | nil => simp
  | cons a l ih =>
      have ha : p a = true := h a (by simp)
      have hl : ∀ x ∈ l, p x = true := fun x hx => h x (by simp [hx])
      obtain ⟨h1, h2⟩ := ih hl
      simp [List.takeWhile, List.dropWhile, ha, h1, h2]

lemma takeWhile_append_stop (p : Char → Bool) (l : List Char) (c : Char)
    (r : List Char) (hl : ∀ x ∈ l, p x = true) (hc : p c = false) :
    (l ++ c :: r).takeWhile p = l ∧ (l ++ c :: r).dropWhile p = c :: r := by
  induction l with
  | nil => simp [List.takeWhile, List.dropWhile, hc]
  | cons a l ih =>
      have ha : p a = true := hl a (by simp)
      have hl2 : ∀ x ∈ l, p x = true := fun x hx => hl x (by simp [hx])
      obtain ⟨h1, h2⟩ := ih hl2
      simp [List.takeWhile, List.dropWhile, ha, h1, h2]

lemma scanQuoted_escape (v r : List Char) :
    scanQuoted (escapeLabelValue v ++ '"' :: r) = some (v, r) := by
  induction v with
  | nil =>
      simp only [escapeLabelValue, List.nil_append]
      rw [scanQuoted.eq_def]
      simp
  | cons c cs ih =>
      by_cases h1 : c = '\\'
      · subst h1
        have he : escChar '\\' = ['\\', '\\'] := by decide
        simp only [escapeLabelValue, he, List.cons_append, List.append_assoc]
        rw [scanQuoted.eq_def]
        simp [unescapeChar, ih]
      · by_cases h2 : c = '\n'
        · subst h2
          have he : escChar '\n' = ['\\', 'n'] := by decide
          simp only [escapeLabelValue, he, List.cons_append, List.append_assoc]
          rw [scanQuoted.eq_def]
          simp [unescapeChar, ih]
        · by_cases h3 : c = '"'
          · subst h3
            have he : escChar '"' = ['\\', '"'] := by decide
            simp only [escapeLabelValue, he, List.cons_append, List.append_assoc]
            rw [scanQuoted.eq_def]
            simp [unescapeChar, ih]
          · have he : escChar c = [c] := by simp [escChar, h1, h2, h3]
            simp only [escapeLabelValue, he, List.cons_append, List.nil_append]
            rw [scanQuoted.eq_def]
            simp [h1, h3, ih]

def valRev : List Nat → Nat
  | [] => 0
  | d :: ds => d + 10 * valRev ds

lemma valRev_digitsRevFuel :
    ∀ fuel n : Nat, n ≤ fuel → valRev (digitsRevFuel fuel n) = n := by
  intro fuel
  induction fuel with
  | zero =>
      intro n hn
      have : n = 0 := Nat.le_zero.mp hn
      subst this
      simp [digitsRevFuel, valRev]
  | succ fuel ih =>
      intro n hn
      by_cases h : n = 0
      · subst h; simp [digitsRevFuel, valRev]
      · have hdiv : n / 10 ≤ fuel := by
          have := Nat.div_lt_self (Nat.pos_of_ne_zero h) (by norm_num : 1 < 10)
          omega
        simp only [digitsRevFuel, h, if_false, valRev, ih _ hdiv]
        omega

lemma digitsRevFuel_lt :
    ∀ fuel n : Nat, ∀ d ∈ digitsRevFuel fuel n, d < 10 := by
  intro fuel
  induction fuel with
  | zero => intro n d hd; simp [digitsRevFuel] at hd
  | succ fuel ih =>
      intro n d hd
      by_cases h : n = 0
      · subst h; simp [digitsRevFuel] at hd
      · simp only [digitsRevFuel, h, if_false, List.mem_cons] at hd
        rcases hd with h1 | h1
        · subst h1; exact Nat.mod_lt _ (by omega)
        · exact ih _ d h1

lemma toNat_digitChar (d : Nat) (hd : d < 10) :
    (Char.ofNat (48 + d)).toNat = 48 + d := by
  interval_cases d <;> decide

lemma foldl_digits (ds : List Nat) (acc : Nat) (h : ∀ d ∈ ds, d < 10) :
    ((ds.reverse.map fun d => Char.ofNat (48 + d)).foldl
        (fun a c => 10 * a + (c.toNat - 48)) acc)
      = acc * 10 ^ ds.length + valRev ds := by
  induction ds generalizing acc with
  | nil => simp [valRev]
  | cons d ds ih =>
      have hd : d < 10 := h d (by simp)
      have hds : ∀ x ∈ ds, x < 10 := fun x hx => h x (by simp [hx])
      rw [List.reverse_cons, List.map_append, List.foldl_append]
      simp only [List.map_cons, List.map_nil, List.foldl_cons, List.foldl_nil,
        ih _ hds, toNat_digitChar d hd, valRev, List.length_cons, pow_succ]
      have : 48 + d - 48 = d := by omega
      rw [this]
      ring

lemma digitsVal_natDigits (n : Nat) : digitsVal (natDigits n) = n := by
  by_cases h : n = 0
  · subst h; decide
  · have hlt := digitsRevFuel_lt n n
    simp only [natDigits, h, if_false, digitsVal]
    rw [foldl_digits _ 0 hlt, valRev_digitsRevFuel n n le_rfl]
    simp

lemma natDigits_digit (n : Nat) : ∀ c ∈ natDigits n, isDigitCh c = true := by
  by_cases h : n = 0
  · subst h; intro c hc; simp [natDigits] at hc; subst hc; decide
  · intro c hc
    simp only [natDigits, h, if_false, List.mem_map, List.mem_reverse] at hc
    obtain ⟨d, hd, rfl⟩ := hc
    have hlt : d < 10 := digitsRevFuel_lt n n d hd
    simp only [isDigitCh, toNat_digitChar d hlt]
    simp only [Bool.and_eq_true, decide_eq_true_eq]
    omega

lemma natDigits_ne_nil (n : Nat) : natDigits n ≠ [] := by
  by_cases h : n = 0
  · subst h; simp [natDigits]
  · simp only [natDigits, h, if_false]
    cases n with
    | zero => exact absurd rfl h
    | succ m => simp [digitsRevFuel]

lemma parseNatEnd_natDigits (n : Nat) : parseNatEnd (natDigits n) = some n := by
  obtain ⟨h1, h2⟩ := takeWhile_all_eq isDigitCh (natDigits n) (natDigits_digit n)
  simp only [parseNatEnd, h1, h2]
  rw [isEmpty_false_of_ne_nil (natDigits_ne_nil n)]
  simp [digitsVal_natDigits n]

lemma nl_not_mem_escChar (c : Char) : '\n' ∉ escChar c := by
  by_cases h1 : c = '\\'
  · subst h1; decide
  · by_cases h2 : c = '\n'
    · subst h2; decide
    · by_cases h3 : c = '"'
      · subst h3; decide
      · simp only [escChar, h1, h2, h3, if_false, List.mem_singleton]
        exact fun h => h2 h.symm

lemma nl_not_mem_escape (v : List Char) : '\n' ∉ escapeLabelValue v := by
  induction v with
  | nil => simp [escapeLabelValue]
  | cons c cs ih =>
      simp only [escapeLabelValue, List.mem_append]
      rintro (h | h)
      · exact nl_not_mem_escChar c h
      · exact ih h

lemma nl_not_mem_natDigits (n : Nat) : '\n' ∉ natDigits n :=
  fun h => absurd (natDigits_digit n _ h) (by decide)

lemma nl_not_mem_renderLabelPairs (ps : List (String × String))
    (h : ∀ p ∈ ps, '\n' ∉ p.1.data) : '\n' ∉ renderLabelPairs ps := by
  induction ps with
  | nil => simp [renderLabelPairs]
  | cons p tail ih =>
      obtain ⟨k, v⟩ := p
      have hk : '\n' ∉ k.data := h (k, v) (by simp)
      cases tail with
      | nil =>
          intro h1
          simp only [renderLabelPairs, List.mem_append, List.mem_cons,
            List.mem_singleton, List.not_mem_nil, or_false] at h1
          rcases h1 with h1 | h1 | h1 | h1 | h1
          · exact hk h1
          · exact absurd h1 (by decide)
          · exact absurd h1 (by decide)
          · exact nl_not_mem_escape v.data h1
          · exact absurd h1 (by decide)
      | cons q qs =>
          have htail : ∀ x ∈ q :: qs, '\n' ∉ x.1.data :=
            fun x hx => h x (by simp [List.mem_cons] at hx ⊢; tauto)
          intro h1
          simp only [renderLabelPairs, List.mem_append, List.mem_cons] at h1
          rcases h1 with h1 | h1 | h1 | h1 | h1 | h1 | h1
          · exact hk h1
          · exact absurd h1 (by decide)
          · exact absurd h1 (by decide)
          · exact nl_not_mem_escape v.data h1
          · exact absurd h1 (by decide)
          · exact absurd h1 (by decide)
          · exact ih htail h1

lemma splitOnNl_line (l rest : List Char) (h : '\n' ∉ l) :
    splitOnNl (l ++ '\n' :: rest) = l :: splitOnNl rest := by
  induction l with
  | nil =>
      simp only [List.nil_append]
      rw [splitOnNl.eq_def]
      simp
  | cons c cl ih =>
      have hc : ¬c = '\n' := fun he => h (by simp [he])
      have hl : '\n' ∉ cl := fun hm => h (by simp [hm])
      simp only [List.cons_append]
      rw [splitOnNl.eq_def]
      simp only [hc, if_false]
      rw [ih hl]

lemma renderLabelPairs_length_ge (ps : List (String × String)) :
    ps.length ≤ (renderLabelPairs ps).length := by
  induction ps with
  | nil => simp [renderLabelPairs]
  | cons p tail ih =>
      obtain ⟨k, v⟩ := p
      cases tail with
      | nil =>
          simp only [renderLabelPairs, List.length_append, List.length_cons,
            List.length_singleton, List.length_nil]
          omega
      | cons q qs =>
          simp only [renderLabelPairs, List.length_append, List.length_cons] at ih ⊢
          omega

lemma parseLabelList_render :
    ∀ (ps : List (String × String)) (fuel : Nat) (tail : List Char),
      ps ≠ [] → ps.length ≤ fuel →
      (∀ p ∈ ps, p.1.data ≠ [] ∧ ∀ c ∈ p.1.data, isLabelNameChar c = true) →
      parseLabelList fuel (renderLabelPairs ps ++ rbrace :: tail)
        = some (ps, tail) := by
  intro ps
  induction ps with
  | nil => intro fuel tail hne; exact absurd rfl hne
  | cons p tail0 ih =>
      obtain ⟨k, v⟩ := p
      intro fuel tl hne hfuel hgood
      obtain ⟨hk1, hk2⟩ := hgood (k, v) (by simp)
      cases fuel with
      | zero => simp at hfuel
      | succ fl =>
          have heq : isLabelNameChar '=' = false := by decide
          have hrb : (rbrace = ',') = False := by simp; decide
          cases tail0 with
          | nil =>
              simp only [renderLabelPairs, List.cons_append, List.append_assoc,
                List.nil_append]
              obtain ⟨ht, hd⟩ := takeWhile_append_stop isLabelNameChar k.data '='
                (('"') :: (escapeLabelValue v.data ++ '"' :: rbrace :: tl)) hk2 heq
              rw [parseLabelList.eq_def]
              simp only
              rw [ht, hd, isEmpty_false_of_ne_nil hk1]
              simp [scanQuoted_escape, hrb]
          | cons q qs =>
              have hih := ih fl tl (by simp)
                (by simp at hfuel ⊢; omega)
                (fun x hx => hgood x (by simp [List.mem_cons] at hx ⊢; tauto))
              simp only [renderLabelPairs, List.cons_append, List.append_assoc,
                List.nil_append]
              obtain ⟨ht, hd⟩ := takeWhile_append_stop isLabelNameChar k.data '='
                (('"') :: (escapeLabelValue v.data ++ '"' :: ',' ::
                  (renderLabelPairs (q :: qs) ++ rbrace :: tl))) hk2 heq
              rw [parseLabelList.eq_def]
              simp only
              rw [ht, hd, isEmpty_false_of_ne_nil hk1]
              simp [scanQuoted_escape, hih]

/-- The characters of one encoded sample line, without its newline. -/
def metricLine (nm : String) (m : Metric) : List Char :=
  nm.data ++ lbrace :: (renderLabelPairs m.labels ++ rbrace :: ' ' :: natDigits m.value)

lemma encodeMetric_eq_line (nm : String) (m : Metric) (hm : m.labels ≠ []) :
    encodeMetric nm m = metricLine nm m ++ '\n' :: [] := by
  cases hl : m.labels with
  | nil => exact absurd hl hm
  | cons p ps =>
      simp [encodeMetric, metricLine, hl, List.append_assoc]

lemma nl_not_mem_metricLine (nm : String) (m : Metric)
    (hnm : '\n' ∉ nm.data) (hkeys : ∀ p ∈ m.labels, '\n' ∉ p.1.data) :
    '\n' ∉ metricLine nm m := by
  intro h1
  simp only [metricLine, List.mem_append, List.mem_cons] at h1
  rcases h1 with h1 | h1 | h1 | h1 | h1 | h1
  · exact hnm h1
  · exact absurd h1 (by decide)
  · exact nl_not_mem_renderLabelPairs m.labels hkeys h1
  · exact absurd h1 (by decide)
  · exact absurd h1 (by decide)
  · exact nl_not_mem_natDigits m.value h1

lemma parseSampleLine_render (nm : String) (m : Metric)
    (hnm1 : nm.data ≠ []) (hnm2 : ∀ c ∈ nm.data, isMetricNameChar c = true)
    (hps : m.labels ≠ [])
    (hkeys : ∀ p ∈ m.labels,
      p.1.data ≠ [] ∧ ∀ c ∈ p.1.data, isLabelNameChar c = true) :
    parseSampleLine (metricLine nm m) = some ⟨nm, m.labels, m.value⟩ := by
  have hlb : isMetricNameChar lbrace = false := by decide
  obtain ⟨ht, hd⟩ := takeWhile_append_stop isMetricNameChar nm.data lbrace
    (renderLabelPairs m.labels ++ rbrace :: ' ' :: natDigits m.value) hnm2 hlb
  have hpll := parseLabelList_render m.labels
    ((renderLabelPairs m.labels ++ rbrace :: ' ' :: natDigits m.value).length + 1)
    (' ' :: natDigits m.value) hps
    (by
      have h1 := renderLabelPairs_length_ge m.labels
      simp only [List.length_append, List.length_cons]
      omega)
    hkeys
  simp only [List.length_append, List.length_cons] at hpll
  rw [parseSampleLine.eq_def]
  simp only [metricLine]
  rw [ht, hd, isEmpty_false_of_ne_nil hnm1]
  simp [hpll, parseNatEnd_natDigits]

/-- The characters of the `# HELP` line of an encoded family. -/
def helpLine (mf : MetricFamily) : List Char :=
  "# HELP ".data ++ mf.name.data ++ ' ' :: escapeHelp mf.help.data

/-- The characters of the `# TYPE` line of an encoded family. -/
def typeLine (mf : MetricFamily) : List Char :=
  "# TYPE ".data ++ mf.name.data ++ ' ' :: mf.mtype.data

lemma encodeFamily_eq_lines (mf : MetricFamily) :
    encodeFamily mf
      = helpLine mf ++ '\n' ::
          (typeLine mf ++ '\n' :: encodeMetrics mf.name mf.metrics) := by
  simp [encodeFamily, helpLine, typeLine, List.append_assoc]

lemma isCommentOrBlank_append_false (l r : List Char)
    (h : isCommentOrBlank l = false) : isCommentOrBlank (l ++ r) = false := by
  cases l with
  | nil => simp [isCommentOrBlank] at h
  | cons a l => simpa [isCommentOrBlank] using h

lemma splitOnNl_nil : splitOnNl [] = [[]] := by
  rw [splitOnNl.eq_def]

/-- C7: round-trip — parsing the text rendered by `prometheus_output` with a
conformant exposition-format parser recovers the family name `check_count`,
the same two label sets (with the endpoint label value restored verbatim,
escaping undone) and the same two counter values. -/
theorem C7_render_parse_round_trip (E : String) (s f : Nat) :
    ∃ resp, prometheus_output E s f = Except.ok resp
      ∧ parseExposition resp.body
        = some [⟨"check_count", [("endpoint", E), ("result", "SUCCESS")], s⟩,
                ⟨"check_count", [("endpoint", E), ("result", "TIMEOUT")], f⟩] := by
  refine ⟨⟨200, TextEncoder.format_type,
    encodeFamilies (Registry.gather [counterS E s, counterF E f])⟩, ?_, ?_⟩
  · unfold prometheus_output
    rw [check_registry_eq]
    exact rfl
  · show parseExposition
      (encodeFamilies (Registry.gather [counterS E s, counterF E f])) = _
    rw [gather_check]
    simp only [encodeFamilies, List.append_nil]
    rw [encodeFamily_eq_lines]
    rw [show encodeMetrics
        (MetricFamily.name ⟨"check_count", "Number of connection check results",
          "counter", [⟨[("endpoint", E), ("result", "SUCCESS")], s⟩,
            ⟨[("endpoint", E), ("result", "TIMEOUT")], f⟩]⟩)
        (MetricFamily.metrics ⟨"check_count", "Number of connection check results",
          "counter", [⟨[("endpoint", E), ("result", "SUCCESS")], s⟩,
            ⟨[("endpoint", E), ("result", "TIMEOUT")], f⟩]⟩)
      = encodeMetrics "check_count"
          [⟨[("endpoint", E), ("result", "SUCCESS")], s⟩,
           ⟨[("endpoint", E), ("result", "TIMEOUT")], f⟩] from rfl]
    have hmet : encodeMetrics "check_count"
        [⟨[("endpoint", E), ("result", "SUCCESS")], s⟩,
         ⟨[("endpoint", E), ("result", "TIMEOUT")], f⟩]
        = metricLine "check_count" ⟨[("endpoint", E), ("result", "SUCCESS")], s⟩
            ++ '\n' ::
          (metricLine "check_count" ⟨[("endpoint", E), ("result", "TIMEOUT")], f⟩
            ++ '\n' :: []) := by
      simp only [encodeMetrics, List.append_nil]
      rw [encodeMetric_eq_line _ _ (by simp), encodeMetric_eq_line _ _ (by simp)]
      simp [List.append_assoc]
    rw [hmet]
    rw [show helpLine ⟨"check_count", "Number of connection check results",
          "counter", [⟨[("endpoint", E), ("result", "SUCCESS")], s⟩,
            ⟨[("endpoint", E), ("result", "TIMEOUT")], f⟩]⟩
        = "# HELP check_count Number of connection check results".data from rfl]
    rw [show typeLine ⟨"check_count", "Number of connection check results",
          "counter", [⟨[("endpoint", E), ("result", "SUCCESS")], s⟩,
            ⟨[("endpoint", E), ("result", "TIMEOUT")], f⟩]⟩
        = "# TYPE check_count counter".data from rfl]
    have hkeysNl1 : ∀ p ∈ (⟨[("endpoint", E), ("result", "SUCCESS")], s⟩ :
        Metric).labels, '\n' ∉ p.1.data := by
      intro p hp
      rcases List.mem_cons.mp hp with h | h
      · subst h; show '\n' ∉ "endpoint".data; decide
      · rcases List.mem_cons.mp h with h2 | h2
        · subst h2; show '\n' ∉ "result".data; decide
        · simp at h2
    have hkeysNl2 : ∀ p ∈ (⟨[("endpoint", E), ("result", "TIMEOUT")], f⟩ :
        Metric).labels, '\n' ∉ p.1.data := by
      intro p hp
      rcases List.mem_cons.mp hp with h | h
      · subst h; show '\n' ∉ "endpoint".data; decide
      · rcases List.mem_cons.mp h with h2 | h2
        · subst h2; show '\n' ∉ "result".data; decide
        · simp at h2
    have hkeysGood1 : ∀ p ∈ (⟨[("endpoint", E), ("result", "SUCCESS")], s⟩ :
        Metric).labels, p.1.data ≠ [] ∧ ∀ c ∈ p.1.data, isLabelNameChar c = true := by
      intro p hp
      rcases List.mem_cons.mp hp with h | h
      · subst h
        exact ⟨by show "endpoint".data ≠ []; decide,
          by show ∀ c ∈ "endpoint".data, isLabelNameChar c = true; decide⟩
      · rcases List.mem_cons.mp h with h2 | h2
        · subst h2
          exact ⟨by show "result".data ≠ []; decide,
            by show ∀ c ∈ "result".data, isLabelNameChar c = true; decide⟩
        · simp at h2
    have hkeysGood2 : ∀ p ∈ (⟨[("endpoint", E), ("result", "TIMEOUT")], f⟩ :
        Metric).labels, p.1.data ≠ [] ∧ ∀ c ∈ p.1.data, isLabelNameChar c = true := by
      intro p hp
      rcases List.mem_cons.mp hp with h | h
      · subst h
        exact ⟨by show "endpoint".data ≠ []; decide,
          by show ∀ c ∈ "endpoint".data, isLabelNameChar c = true; decide⟩
      · rcases List.mem_cons.mp h with h2 | h2
        · subst h2
          exact ⟨by show "result".data ≠ []; decide,
            by show ∀ c ∈ "result".data, isLabelNameChar c = true; decide⟩
        · simp at h2
    have hnlL1 : '\n' ∉ metricLine "check_count"
        ⟨[("endpoint", E), ("result", "SUCCESS")], s⟩ :=
      nl_not_mem_metricLine _ _ (by decide) hkeysNl1
    have hnlL2 : '\n' ∉ metricLine "check_count"
        ⟨[("endpoint", E), ("result", "TIMEOUT")], f⟩ :=
      nl_not_mem_metricLine _ _ (by decide) hkeysNl2
    have hs1 : parseSampleLine (metricLine "check_count"
        ⟨[("endpoint", E), ("result", "SUCCESS")], s⟩)
        = some ⟨"check_count", [("endpoint", E), ("result", "SUCCESS")], s⟩ :=
      parseSampleLine_render "check_count" _ (by decide) (by decide)
        (by simp) hkeysGood1
    have hs2 : parseSampleLine (metricLine "check_count"
        ⟨[("endpoint", E), ("result", "TIMEOUT")], f⟩)
        = some ⟨"check_count", [("endpoint", E), ("result", "TIMEOUT")], f⟩ :=
      parseSampleLine_render "check_count" _ (by decide) (by decide)
        (by simp) hkeysGood2
    have hc3 : isCommentOrBlank (metricLine "check_count"
        ⟨[("endpoint", E), ("result", "SUCCESS")], s⟩) = false := by
      show isCommentOrBlank ("check_count".data ++ lbrace ::
        (renderLabelPairs [("endpoint", E), ("result", "SUCCESS")]
          ++ rbrace :: ' ' :: natDigits s)) = false
      exact isCommentOrBlank_append_false _ _ (by decide)
    have hc4 : isCommentOrBlank (metricLine "check_count"
        ⟨[("endpoint", E), ("result", "TIMEOUT")], f⟩) = false := by
      show isCommentOrBlank ("check_count".data ++ lbrace ::
        (renderLabelPairs [("endpoint", E), ("result", "TIMEOUT")]
          ++ rbrace :: ' ' :: natDigits f)) = false
      exact isCommentOrBlank_append_false _ _ (by decide)
    have hcH : isCommentOrBlank
        ("# HELP check_count Number of connection check results".data) = true := by
      decide
    have hcT : isCommentOrBlank ("# TYPE check_count counter".data) = true := by
      decide
    have hcE : isCommentOrBlank ([] : List Char) = true := rfl
    unfold parseExposition
    rw [splitOnNl_line _ _ (by decide), splitOnNl_line _ _ (by decide),
      splitOnNl_line _ _ hnlL1, splitOnNl_line _ _ hnlL2, splitOnNl_nil]
    simp [parseLines.eq_def, hcH, hcT, hcE, hc3, hc4, hs1, hs2]

end WsMonitor
